import Mathlib

set_option maxHeartbeats 1000000
set_option maxRecDepth 4000

namespace Fractionz

/-! Shallow embedding of src/app.js (FractionAI battle bot).

The external collaborators (the wallet/session client, Tools.delay,
Display) are modelled as oracles: the outcome of each remote start call,
the success or failure of a wait, and the result of the connect/hydrate
phase are inputs of the embedding.  Wall-clock time is modelled as
milliseconds of uniform local time since a midnight-aligned epoch, so
that Date#setHours(h+1, 0, 0, 0) becomes rounding up to the next
multiple of an hour. -/

/-! ## Rate-limit state (src/app.js lines 31-32)

`sessionCount` and `lastSessionTime` are module-level mutable bindings,
declared once for the whole process, outside `runWallet`. -/

/-- The pair of module-level mutable bindings of lines 31-32. -/
structure RL where
  sessionCount : Nat
  lastSessionTime : Option Nat
deriving DecidableEq

/-! ## handleSessionLimit timing (lines 34-43) -/

/-- Milliseconds per hour. -/
def msPerHour : Nat := 3600000

/-- The `nextHour` value of line 36-37: a copy of `now` with the hour
incremented and minutes, seconds and milliseconds zeroed; under the
uniform-time model this is rounding up to the next multiple of an hour. -/
def nextHourMs (now : Nat) : Nat := (now / msPerHour + 1) * msPerHour

/-- `remainingTime` of line 39: `nextHour - now`. -/
def sessionLimitRemainingMs (now : Nat) : Nat := nextHourMs now - now

/-- The wait the spec describes: the time remaining until HH:00:00.000 of
the next wall-clock hour. -/
def specRemainingMs (now : Nat) : Nat := msPerHour - now % msPerHour

/-- handleSessionLimit (lines 34-64) with the outcome of the underlying
`Tools.delay` made explicit: `Except.ok ()` when the wait completes,
`Except.error e` when the wait rejects.  The two reset assignments of
lines 62-63 run only when the `await` of line 58 returns normally; a
rejection propagates out of the function first. -/
def handleSessionLimit (now : Nat) (delay : Except String Unit) (s : RL) :
    Except String Unit × RL :=
  let remainingTime := sessionLimitRemainingMs now
  if 0 < remainingTime then
    match delay with
    | Except.error e => (Except.error e, s)
    | Except.ok _ => (Except.ok (), ⟨0, none⟩)
  else
    (Except.ok (), ⟨0, none⟩)

/-! ## Key loading (lines 20-29) -/

/-- ASCII whitespace; stands for the whitespace notion of the host
language's `String#trim`.  The statements about key loading are proved
for an arbitrary whitespace predicate, so nothing depends on the exact
set. -/
def isWS (c : Char) : Bool := c == ' ' || c == '\t' || c == '\n' || c == '\r'

/-- `data.split("\n")` on a character list: split at every newline,
keeping empty segments. -/
def splitNl : List Char → List (List Char)
  | [] => [[]]
  | c :: cs =>
    let r := splitNl cs
    if c = '\n' then [] :: r
    else (c :: r.headI) :: r.tail

/-- `key.trim()`: drop whitespace from both ends. -/
def jsTrim (ws : Char → Bool) (l : List Char) : List Char :=
  (((l.dropWhile ws).reverse).dropWhile ws).reverse

/-- loadKeys (line 23): `data.split("\n").filter((key) => key.trim())` —
keep the lines whose trimmed form is nonempty, untouched and in order. -/
def loadKeys (ws : Char → Bool) (content : List Char) : List (List Char) :=
  (splitNl content).filter (fun key => !(jsTrim ws key).isEmpty)

/-- The key list the spec describes: the newline-split lines with the
blank and whitespace-only lines discarded, every kept line untrimmed. -/
def specLoadKeys (ws : Char → Bool) (content : List Char) : List (List Char) :=
  (splitNl content).filter (fun line => !line.all ws)

/-! ## Bot supervisor (lines 171-195) -/

/-- The key source `data.txt`: either unreadable or some content. -/
inductive KeySource
  | missing
  | content (data : List Char)

/-- loadKeys at its fallible boundary (lines 20-29): a read failure
becomes the thrown descriptive error. -/
def loadKeysE (ws : Char → Bool) : KeySource → Except String (List (List Char))
  | KeySource.missing =>
      Except.error "Please create data.txt with your private keys (one per line)"
  | KeySource.content data => Except.ok (loadKeys ws data)

/-- What one round of startBot does next. -/
inductive BotStep
  | fatalExit (code : Nat)
  | restartAfterDelay
  | running
deriving DecidableEq

/-- One round of startBot (lines 171-190): load the keys; an empty list
throws; both that throw and a load failure are caught by the catch
block, which logs, waits 5 s and calls startBot again.  The
`process.exit(1)` handler of lines 192-195 is reached only by an error
escaping startBot itself, which the catch block prevents. -/
def startBot (ws : Char → Bool) (src : KeySource) : BotStep :=
  match loadKeysE ws src with
  | Except.error _ => BotStep.restartAfterDelay
  | Except.ok keys =>
      if keys.length = 0 then BotStep.restartAfterDelay else BotStep.running

/-! ## Sessions, agents, cooldown (lines 88-159) -/

/-- The sessionType descriptor carried by agents and sessions
(`x.sessionType.sessionType`, `durationPerRound`, `rounds`). -/
structure SessionTypeDesc where
  sessionType : Nat
  durationPerRound : Nat
  rounds : Nat
deriving DecidableEq

/-- A remote agent: name, session-type descriptor, automation flag. -/
structure Agent where
  name : String
  sessionType : SessionTypeDesc
  automationEnabled : Bool
deriving DecidableEq

/-- A remote session: its session-type descriptor. -/
structure Session where
  sessionType : SessionTypeDesc
deriving DecidableEq

/-- `duration` of line 151-152: `durationPerRound * rounds`. -/
def durOf (sess : Session) : Nat :=
  sess.sessionType.durationPerRound * sess.sessionType.rounds

/-- Cool-down computation (lines 149-154): start from 60 and replace by
any strictly smaller `durationPerRound * rounds`. -/
def minDuration (sessions : List Session) : Nat :=
  sessions.foldl (fun m sess => if durOf sess < m then durOf sess else m) 60

/-- The cool-down the spec describes: the minimum of 60 and, over every
session, `durationPerRound * rounds`. -/
def specMinDuration (sessions : List Session) : Nat :=
  sessions.foldr (fun sess m => min (durOf sess) m) 60

/-- Sessions whose duration products are 200, 45 and 90. -/
def sessionsA : List Session := [⟨⟨0, 100, 2⟩⟩, ⟨⟨0, 15, 3⟩⟩, ⟨⟨0, 45, 2⟩⟩]

/-- Sessions whose duration products are 200 and 300. -/
def sessionsB : List Session := [⟨⟨0, 100, 2⟩⟩, ⟨⟨0, 150, 2⟩⟩]

/-! ## Shared quota across concurrent wallets (C7) -/

/-- An action on the shared rate-limit pair, tagged with the wallet
(index among the `W` concurrently launched loops) that performs it:
lines 119-120 executed inside wallet `w`, or the reset of lines 62-63
reached from wallet `w`. -/
inductive RLAct (W : Nat)
  | record (w : Fin W) (now : Nat)
  | reset (w : Fin W)

/-- Effect of one action on the single shared pair: the wallet tag does
not enter the update, exactly as the source mutates the one global
binding. -/
def rlStep (s : RL) : RLAct W → RL
  | RLAct.record _ now => ⟨s.sessionCount + 1, some now⟩
  | RLAct.reset _ => ⟨0, none⟩

/-- Interleaved run of actions from all wallets on the shared pair. -/
def rlRun (s : RL) (acts : List (RLAct W)) : RL := acts.foldl rlStep s

/-- The quota gate consulted by wallet `w` (lines 71 and 124 read the
global `sessionCount`; the wallet identity does not enter the read). -/
def quotaGate (_w : Fin W) (s : RL) : Bool := decide (s.sessionCount < 6)

/-- Re-tag every action with a different wallet. -/
def relabel (f : Fin W → Fin W) : RLAct W → RLAct W
  | RLAct.record w now => RLAct.record (f w) now
  | RLAct.reset w => RLAct.reset (f w)

/-! ## The wallet session loop (lines 66-169), as a trace machine

One wallet's execution is modelled as a fuel-indexed interpreter that
emits a trace of the externally visible waits and calls and threads the
rate-limit state.  The waits of the loop complete normally here (their
failure mode is covered by `handleSessionLimit` above); the remote
operations are oracles in `WalletEnv`. -/

/-- Result of one invocation of the external start operation
(startMatch / startAutoMatch): a truthy result, a falsy result returned
without throwing, or a thrown error. -/
inductive StartOutcome
  | ok
  | falsy
  | err
deriving DecidableEq

/-- The configuration consumed by the loop (config.json fields used by
runWallet). -/
structure Config where
  isAutoMatch : Bool
  agentName : String
  maxGames : Nat
  fee : Nat

/-- The external world of one process: the outcome of the k-th start
call, the clock sampled at that call (`Date.now()`), and the result of
the k-th connect/hydrate phase (lines 77-82: `connect` through
`getFractalInfo`, `none` when any of them throws). -/
structure WalletEnv where
  startOutcome : Nat → StartOutcome
  now : Nat → Nat
  hydrate : Nat → Option (List Agent × List Session)

/-- The mutable state threaded through the loop: the two globals of
lines 31-32 plus bookkeeping indices into the oracles. -/
structure St where
  sessionCount : Nat
  lastSessionTime : Option Nat
  callIdx : Nat
  hydIdx : Nat
deriving DecidableEq

/-- The state a process starts in: both globals at their initializers. -/
def initSt : St := ⟨0, none, 0, 0⟩

/-- The kinds of externally visible events of one wallet's execution. -/
inductive EvKind
  | startCall (auto : Bool) (o : StartOutcome)
  | resetWait
  | backoffWait
  | pauseWait
  | noAgentsWait
  | errorWait
  | skipAutomated
  | skipAfterMax
  | cooldownWait (secs : Nat)
deriving DecidableEq

/-- One trace entry: the event together with the value of the global
`sessionCount` immediately before and immediately after it. -/
structure Entry where
  ev : EvKind
  before : Nat
  after : Nat
deriving DecidableEq

/-- `maxRetries` of line 107. -/
def maxRetries : Nat := 3

/-- handleSessionLimit as called from inside the loop (wait completes,
then lines 62-63 reset both globals). -/
def handleSessionLimitRun (s : St) : Entry × St :=
  (⟨EvKind.resetWait, s.sessionCount, 0⟩,
    { s with sessionCount := 0, lastSessionTime := none })

/-- How the retry `while` of lines 109-142 ends. -/
inductive AExit
  | matched
  | limitHit
  | gaveUp
  | fuelOut
deriving DecidableEq

/-- The retry `while` of lines 109-142: up to `maxRetries` attempts; a
truthy result increments `sessionCount`, stores the time, and either
trips the quota gate (reset-wait, then restart the whole wallet) or
waits 2 s and breaks; a falsy result loops again without touching the
retry counter; a thrown error increments the retry counter and either
logs the terminal skip and breaks, or backs off 10 s and retries. -/
def attemptLoop (env : WalletEnv) (auto : Bool) :
    Nat → Nat → St → List Entry × St × AExit
  | 0, _, s => ([], s, AExit.fuelOut)
  | fuel + 1, retryCount, s =>
    if retryCount < maxRetries then
      let c := s.sessionCount
      let s1 := { s with callIdx := s.callIdx + 1 }
      match env.startOutcome s.callIdx with
      | StartOutcome.ok =>
        let s2 := { s1 with sessionCount := c + 1,
                            lastSessionTime := some (env.now s.callIdx) }
        if 6 ≤ s2.sessionCount then
          let r := handleSessionLimitRun s2
          ([⟨EvKind.startCall auto StartOutcome.ok, c, c + 1⟩, r.1],
            r.2, AExit.limitHit)
        else
          ([⟨EvKind.startCall auto StartOutcome.ok, c, c + 1⟩,
            ⟨EvKind.pauseWait, c + 1, c + 1⟩], s2, AExit.matched)
      | StartOutcome.falsy =>
        let r := attemptLoop env auto fuel retryCount s1
        (⟨EvKind.startCall auto StartOutcome.falsy, c, c⟩ :: r.1, r.2)
      | StartOutcome.err =>
        if maxRetries ≤ retryCount + 1 then
          ([⟨EvKind.startCall auto StartOutcome.err, c, c⟩,
            ⟨EvKind.skipAfterMax, c, c⟩], s1, AExit.gaveUp)
        else
          let r := attemptLoop env auto fuel (retryCount + 1) s1
          (⟨EvKind.startCall auto StartOutcome.err, c, c⟩ ::
            ⟨EvKind.backoffWait, c, c⟩ :: r.1, r.2)
    else ([], s, AExit.gaveUp)

/-- How processing one session ends: go on to the next session, restart
the whole wallet (quota tripped), or out of fuel. -/
inductive SExit
  | next
  | restart
  | fuelOut
deriving DecidableEq

/-- The body of the `for` of lines 103-147 for one session: sessions of
a different type are passed over; a matching session is skipped with a
log when the target agent is already automated, and otherwise goes
through the retry loop. -/
def processSession (env : WalletEnv) (cfg : Config) (target : Agent)
    (sess : Session) (fuel : Nat) (s : St) : List Entry × St × SExit :=
  if target.sessionType.sessionType = sess.sessionType.sessionType then
    if target.automationEnabled = false then
      let r := attemptLoop env cfg.isAutoMatch fuel 0 s
      match r.2.2 with
      | AExit.matched => (r.1, r.2.1, SExit.next)
      | AExit.gaveUp => (r.1, r.2.1, SExit.next)
      | AExit.limitHit => (r.1, r.2.1, SExit.restart)
      | AExit.fuelOut => (r.1, r.2.1, SExit.fuelOut)
    else
      ([⟨EvKind.skipAutomated, s.sessionCount, s.sessionCount⟩], s, SExit.next)
  else ([], s, SExit.next)

/-- The `for` of lines 103-147 over the whole session list. -/
def sessionLoop (env : WalletEnv) (cfg : Config) (target : Agent) :
    List Session → Nat → St → List Entry × St × SExit
  | [], _, s => ([], s, SExit.next)
  | sess :: rest, fuel, s =>
    let r := processSession env cfg target sess fuel s
    match r.2.2 with
    | SExit.next =>
      let r2 := sessionLoop env cfg target rest fuel r.2.1
      (r.1 ++ r2.1, r2.2)
    | SExit.restart => (r.1, r.2.1, SExit.restart)
    | SExit.fuelOut => (r.1, r.2.1, SExit.fuelOut)

/-- runWallet (lines 66-169) for one wallet: quota gate at the top, then
connect/hydrate (a failure is caught and retried after 10 s), the
zero-agent guard, target resolution, the session loop (which may trip
the quota and restart), the cool-down, and the tail-recursive restart.
Fuel bounds the number of loop turns; the real loop never ends. -/
def runWallet (env : WalletEnv) (cfg : Config) : Nat → St → List Entry × St
  | 0, s => ([], s)
  | fuel + 1, s =>
    if 6 ≤ s.sessionCount then
      let r := handleSessionLimitRun s
      let r2 := runWallet env cfg fuel r.2
      (r.1 :: r2.1, r2.2)
    else
      match env.hydrate s.hydIdx with
      | none =>
        let s1 := { s with hydIdx := s.hydIdx + 1 }
        let r := runWallet env cfg fuel s1
        (⟨EvKind.errorWait, s.sessionCount, s.sessionCount⟩ :: r.1, r.2)
      | some (agents, sessions) =>
        let s1 := { s with hydIdx := s.hydIdx + 1 }
        if agents.length = 0 then
          let r := runWallet env cfg fuel s1
          (⟨EvKind.noAgentsWait, s.sessionCount, s.sessionCount⟩ ::
            ⟨EvKind.errorWait, s.sessionCount, s.sessionCount⟩ :: r.1, r.2)
        else
          match agents.find? (fun a => a.name == cfg.agentName) with
          | none =>
            let r := runWallet env cfg fuel s1
            (⟨EvKind.errorWait, s.sessionCount, s.sessionCount⟩ :: r.1, r.2)
          | some target =>
            let r := sessionLoop env cfg target sessions fuel s1
            match r.2.2 with
            | SExit.restart =>
              let r2 := runWallet env cfg fuel r.2.1
              (r.1 ++ r2.1, r2.2)
            | SExit.fuelOut => (r.1, r.2.1)
            | SExit.next =>
              let d := minDuration sessions
              let r2 := runWallet env cfg fuel r.2.1
              (r.1 ++ ⟨EvKind.cooldownWait d, r.2.1.sessionCount,
                r.2.1.sessionCount⟩ :: r2.1, r2.2)

/-- An entry is a start call. -/
def isStartEv : EvKind → Bool
  | EvKind.startCall _ _ => true
  | _ => false

/-- Number of start calls in a trace. -/
def countStartCalls (tr : List Entry) : Nat :=
  tr.countP (fun e => isStartEv e.ev)

/-- Number of 10 s backoff waits in a trace. -/
def countBackoffs (tr : List Entry) : Nat :=
  tr.countP (fun e => decide (e.ev = EvKind.backoffWait))

/-- Whether the terminal skip message was logged. -/
def hasSkipLog (tr : List Entry) : Bool :=
  tr.any (fun e => decide (e.ev = EvKind.skipAfterMax))

/-- The counter discipline of one entry: a truthy start call increments
`sessionCount` by exactly 1, the reset-wait zeroes it, and every other
event (falsy or throwing start calls included) leaves it unchanged. -/
def counterOk (e : Entry) : Bool :=
  match e.ev with
  | EvKind.startCall _ o =>
    if o = StartOutcome.ok then decide (e.after = e.before + 1)
    else decide (e.after = e.before)
  | EvKind.resetWait => decide (e.after = 0)
  | _ => decide (e.after = e.before)

/-- A start call only ever happens with the counter strictly below 6. -/
def startBelow6 (e : Entry) : Bool :=
  match e.ev with
  | EvKind.startCall _ _ => decide (e.before < 6)
  | _ => true

/-- The before/after counter annotations of a trace thread through from
`a` to `b`. -/
def Chained : Nat → List Entry → Nat → Prop
  | a, [], b => a = b
  | a, e :: tr, b => e.before = a ∧ Chained e.after tr b

/-- The start-function behavior of C1: throws on the first `n` calls,
then returns a truthy result. -/
def envFailN (n : Nat) : WalletEnv :=
  ⟨fun k => if k < n then StartOutcome.err else StartOutcome.ok,
    fun _ => 0, fun _ => none⟩

/-- The start-function behavior of C9: always returns a falsy result
without throwing. -/
def envFalsy : WalletEnv :=
  ⟨fun _ => StartOutcome.falsy, fun _ => 0, fun _ => none⟩

/-- The target agent of the concrete runs: name "A", session type 0, not
yet automated. -/
def agentA : Agent := ⟨"A", ⟨0, 100, 1⟩, false⟩

/-- The same agent with automation already enabled. -/
def agAuto : Agent := ⟨"A", ⟨0, 100, 1⟩, true⟩

/-- A session of the matching type. -/
def sess0 : Session := ⟨⟨0, 100, 1⟩⟩

/-- A world where every start call returns a truthy result and every
hydration yields agent "A" and one matching session. -/
def env0 : WalletEnv :=
  ⟨fun _ => StartOutcome.ok, fun _ => 0, fun _ => some ([agentA], [sess0])⟩

/-- Manual-match configuration targeting agent "A". -/
def cfg0 : Config := ⟨false, "A", 0, 0⟩

end Fractionz

namespace Fractionz

/-! ## Theorems: timing, reset, supervisor, keys, cooldown, sharing -/

/-- The wait of handleSessionLimit is always positive. -/
theorem remainingMs_pos (now : Nat) : 0 < sessionLimitRemainingMs now := by
  unfold sessionLimitRemainingMs nextHourMs msPerHour
  omega

/-- C8: handleSessionLimit's computed wait equals the time remaining
until HH:00:00.000 of the next wall-clock hour: it matches the
minutes/seconds/milliseconds-zeroed next-hour form, is positive, never
exceeds one hour, and lands exactly on an hour boundary — an alignment
to wall-clock hours, not a sliding window. -/
theorem c8_next_hour_alignment (now : Nat) :
    sessionLimitRemainingMs now = specRemainingMs now ∧
    0 < sessionLimitRemainingMs now ∧
    sessionLimitRemainingMs now ≤ msPerHour ∧
    (now + sessionLimitRemainingMs now) % msPerHour = 0 := by
  unfold sessionLimitRemainingMs nextHourMs specRemainingMs msPerHour
  omega

/-- C8 witness at a concrete instant. -/
theorem c8_next_hour_alignment_witness :
    sessionLimitRemainingMs 7200001 = specRemainingMs 7200001 ∧
    0 < sessionLimitRemainingMs 7200001 ∧
    sessionLimitRemainingMs 7200001 ≤ msPerHour ∧
    (7200001 + sessionLimitRemainingMs 7200001) % msPerHour = 0 :=
  c8_next_hour_alignment 7200001

/-- C3 counterexample: when the underlying delay rejects, the reset does
NOT occur — handleSessionLimit propagates the error with the pair left
exactly as it was, refuting "the reset still occurs in every case". -/
theorem c3_interrupt_counterexample :
    (handleSessionLimit 0 (Except.error "interrupted") ⟨4, some 5⟩).2 =
      (⟨4, some 5⟩ : RL) ∧
    ((⟨4, some 5⟩ : RL) ≠ ⟨0, none⟩) ∧
    (handleSessionLimit 0 (Except.error "interrupted") ⟨4, some 5⟩).1 =
      Except.error "interrupted" := by
  refine ⟨rfl, by decide, rfl⟩

/-- C3 amended: handleSessionLimit clears the count to 0 and the last
time to none exactly when the wait completes normally; when the delay
rejects, the rejection propagates and the pair is unchanged. -/
theorem c3_reset_after_wait (now : Nat) (s : RL) :
    handleSessionLimit now (Except.ok ()) s = (Except.ok (), (⟨0, none⟩ : RL)) ∧
    ∀ e, handleSessionLimit now (Except.error e) s = (Except.error e, s) := by
  have h := remainingMs_pos now
  refine ⟨?_, fun e => ?_⟩ <;> simp [handleSessionLimit, h]

/-- A trimmed line is empty exactly when every character is whitespace. -/
theorem jsTrim_eq_nil_iff (ws : Char → Bool) (l : List Char) :
    jsTrim ws l = [] ↔ l.all ws = true := by
  induction l with
  | nil => simp [jsTrim]
  | cons c l ih =>
    by_cases h : ws c = true
    · have hstep : jsTrim ws (c :: l) = jsTrim ws l := by
        simp [jsTrim, List.dropWhile_cons, h]
      rw [hstep, ih, List.all_cons, h, Bool.true_and]
    · have hne : jsTrim ws (c :: l) ≠ [] := by
        intro hnil
        unfold jsTrim at hnil
        rw [List.dropWhile_cons, if_neg h, List.reverse_eq_nil_iff,
          List.dropWhile_eq_nil_iff] at hnil
        exact h (hnil c (by simp))
      simp [hne, List.all_cons, h]

/-- C10: loadKeys returns exactly the newline-split lines of the content
with the blank and whitespace-only lines discarded, keeping the
remaining lines untrimmed and in order (a sublist of the split). -/
theorem c10_loadKeys_filter (ws : Char → Bool) (content : List Char) :
    loadKeys ws content = specLoadKeys ws content ∧
    (loadKeys ws content).Sublist (splitNl content) := by
  refine ⟨?_, List.filter_sublist _⟩
  unfold loadKeys specLoadKeys
  apply List.filter_congr
  intro x _
  have h1 : (jsTrim ws x).isEmpty = x.all ws := by
    cases h : x.all ws with
    | false =>
      have hne : ¬jsTrim ws x = [] := by
        rw [jsTrim_eq_nil_iff]; simp [h]
      simpa [List.isEmpty_iff] using hne
    | true =>
      have : jsTrim ws x = [] := (jsTrim_eq_nil_iff ws x).mpr h
      simp [this]
  rw [h1]

/-- Replacement by a strictly smaller value is the binary minimum. -/
theorem if_lt_eq_min (d a : Nat) : (if d < a then d else a) = min d a := by
  split
  · exact (Nat.min_eq_left (Nat.le_of_lt (by assumption))).symm
  · exact (Nat.min_eq_right (Nat.le_of_not_lt (by assumption))).symm

/-- Pulling a minimum out of the foldr accumulator. -/
theorem foldr_min_acc (l : List Session) (d acc : Nat) :
    l.foldr (fun s m => min (durOf s) m) (min d acc) =
      min d (l.foldr (fun s m => min (durOf s) m) acc) := by
  induction l with
  | nil => rfl
  | cons s l ih => simp [List.foldr_cons, ih, Nat.min_left_comm]

/-- The source's foldl with strict replacement equals the foldr of
binary minima. -/
theorem foldl_eq_foldr_min (l : List Session) (acc : Nat) :
    l.foldl (fun m s => if durOf s < m then durOf s else m) acc =
      l.foldr (fun s m => min (durOf s) m) acc := by
  induction l generalizing acc with
  | nil => rfl
  | cons s l ih =>
    rw [List.foldl_cons, ih, if_lt_eq_min, foldr_min_acc, List.foldr_cons]

/-- The spec-side cool-down never exceeds 60. -/
theorem specMinDuration_le (l : List Session) : specMinDuration l ≤ 60 := by
  induction l with
  | nil => exact Nat.le_refl 60
  | cons s l ih =>
    exact Nat.le_trans (Nat.min_le_right _ _) ih

/-- C5: the cool-down equals the minimum of 60 and every session's
`durationPerRound * rounds`; for duration products 200, 45, 90 it is 45,
for 200, 300 it is 60, and it never exceeds 60. -/
theorem c5_cooldown :
    (∀ sessions, minDuration sessions = specMinDuration sessions) ∧
    minDuration sessionsA = 45 ∧
    minDuration sessionsB = 60 ∧
    (∀ sessions, minDuration sessions ≤ 60) := by
  have key : ∀ sessions, minDuration sessions = specMinDuration sessions :=
    fun sessions => foldl_eq_foldr_min sessions 60
  refine ⟨key, by decide, by decide, fun sessions => ?_⟩
  rw [key]
  exact specMinDuration_le sessions

/-- C4 counterexample: with the key source missing, and likewise with a
whitespace-only key source (empty key list), startBot does not exit the
process — the error is caught and the bot restarts after a delay. -/
theorem c4_counterexample :
    startBot isWS KeySource.missing = BotStep.restartAfterDelay ∧
    startBot isWS (KeySource.content (' ' :: [])) = BotStep.restartAfterDelay ∧
    BotStep.restartAfterDelay ≠ BotStep.fatalExit 1 := by
  decide

/-- C4 amended: a missing/unreadable key source, or an empty loaded key
list, is caught by the supervisor, which logs, waits 5 seconds and
restarts the bot; the process does not exit with status 1 from startBot
(only a config-load failure exits, which is outside startBot). -/
theorem c4_restart_not_exit :
    (∀ ws, startBot ws KeySource.missing = BotStep.restartAfterDelay) ∧
    (∀ ws data, loadKeys ws data = [] →
      startBot ws (KeySource.content data) = BotStep.restartAfterDelay) ∧
    (∀ ws src, startBot ws src ≠ BotStep.fatalExit 1) := by
  refine ⟨fun ws => rfl, fun ws data h => ?_, fun ws src => ?_⟩
  · simp [startBot, loadKeysE, h]
  · cases src
    · simp [startBot, loadKeysE]
    · simp only [startBot, loadKeysE]
      split <;> simp

/-- C4 witness: the amended behavior at a concrete whitespace-only key
source. -/
theorem c4_restart_not_exit_witness :
    loadKeys isWS (' ' :: []) = [] ∧
    startBot isWS (KeySource.content (' ' :: [])) = BotStep.restartAfterDelay :=
  ⟨by decide, c4_restart_not_exit.2.1 isWS (' ' :: []) (by decide)⟩

/-- C7: the rate-limit pair is one process-global value shared by all
wallet loops: a successful start recorded by any wallet `i` changes the
very counter every wallet `j`'s quota gate reads, and an interleaved
history acts on the shared pair independently of which wallet performed
each action. -/
theorem c7_shared_counter :
    (∀ (W : Nat) (i j : Fin W) (s : RL) (now : Nat),
      quotaGate j (rlStep s (RLAct.record i now)) =
        decide (s.sessionCount + 1 < 6)) ∧
    (∀ (W : Nat) (f : Fin W → Fin W) (s : RL) (acts : List (RLAct W)),
      rlRun s (acts.map (relabel f)) = rlRun s acts) := by
  constructor
  · intro W i j s now
    rfl
  · intro W f s acts
    induction acts generalizing s with
    | nil => rfl
    | cons a acts ih =>
      show rlRun (rlStep s (relabel f a)) (acts.map (relabel f)) =
        rlRun (rlStep s a) acts
      have hstep : rlStep s (relabel f a) = rlStep s a := by
        cases a <;> rfl
      rw [hstep]
      exact ih _

end Fractionz

namespace Fractionz

theorem attemptLoop_counterOk (env : WalletEnv) (auto : Bool) :
    ∀ (fuel retryCount : Nat) (s : St),
      ∀ e ∈ (attemptLoop env auto fuel retryCount s).1, counterOk e = true := by
  intro fuel
  induction fuel with
  | zero => intro rc s e he; simp [attemptLoop] at he
  | succ fuel ih =>
    intro rc s e he
    rw [attemptLoop] at he
    split at he
    · split at he
      · dsimp only at he
        split at he
        · simp [handleSessionLimitRun] at he
          rcases he with rfl | rfl <;> simp [counterOk]
        · simp at he
          rcases he with rfl | rfl <;> simp [counterOk]
      · dsimp only at he
        simp at he
        rcases he with rfl | he
        · simp [counterOk]
        · exact ih _ _ e he
      · dsimp only at he
        split at he
        · simp at he
          rcases he with rfl | rfl <;> simp [counterOk]
        · simp at he
          rcases he with rfl | rfl | he
          · simp [counterOk]
          · simp [counterOk]
          · exact ih _ _ e he
    · simp at he

theorem attemptLoop_step_err (env : WalletEnv) (auto : Bool) (fuel rc : Nat)
    (s : St) (hrc : rc < maxRetries)
    (ho : env.startOutcome s.callIdx = StartOutcome.err)
    (hmax : ¬maxRetries ≤ rc + 1) :
    attemptLoop env auto (fuel + 1) rc s =
      (⟨EvKind.startCall auto StartOutcome.err, s.sessionCount, s.sessionCount⟩ ::
        ⟨EvKind.backoffWait, s.sessionCount, s.sessionCount⟩ ::
        (attemptLoop env auto fuel (rc + 1) { s with callIdx := s.callIdx + 1 }).1,
        (attemptLoop env auto fuel (rc + 1) { s with callIdx := s.callIdx + 1 }).2) := by
  rw [attemptLoop, if_pos hrc]
  dsimp only
  rw [ho]
  dsimp only
  rw [if_neg hmax]

theorem attemptLoop_step_err_last (env : WalletEnv) (auto : Bool) (fuel rc : Nat)
    (s : St) (hrc : rc < maxRetries)
    (ho : env.startOutcome s.callIdx = StartOutcome.err)
    (hmax : maxRetries ≤ rc + 1) :
    attemptLoop env auto (fuel + 1) rc s =
      ([⟨EvKind.startCall auto StartOutcome.err, s.sessionCount, s.sessionCount⟩,
        ⟨EvKind.skipAfterMax, s.sessionCount, s.sessionCount⟩],
        { s with callIdx := s.callIdx + 1 }, AExit.gaveUp) := by
  rw [attemptLoop, if_pos hrc]
  dsimp only
  rw [ho]
  dsimp only
  rw [if_pos hmax]

theorem attemptLoop_step_falsy (env : WalletEnv) (auto : Bool) (fuel rc : Nat)
    (s : St) (hrc : rc < maxRetries)
    (ho : env.startOutcome s.callIdx = StartOutcome.falsy) :
    attemptLoop env auto (fuel + 1) rc s =
      (⟨EvKind.startCall auto StartOutcome.falsy, s.sessionCount, s.sessionCount⟩ ::
        (attemptLoop env auto fuel rc { s with callIdx := s.callIdx + 1 }).1,
        (attemptLoop env auto fuel rc { s with callIdx := s.callIdx + 1 }).2) := by
  rw [attemptLoop, if_pos hrc]
  dsimp only
  rw [ho]

theorem attemptLoop_step_ok_matched (env : WalletEnv) (auto : Bool) (fuel rc : Nat)
    (s : St) (hrc : rc < maxRetries)
    (ho : env.startOutcome s.callIdx = StartOutcome.ok)
    (h6 : ¬6 ≤ s.sessionCount + 1) :
    attemptLoop env auto (fuel + 1) rc s =
      ([⟨EvKind.startCall auto StartOutcome.ok, s.sessionCount, s.sessionCount + 1⟩,
        ⟨EvKind.pauseWait, s.sessionCount + 1, s.sessionCount + 1⟩],
        ⟨s.sessionCount + 1, some (env.now s.callIdx), s.callIdx + 1, s.hydIdx⟩,
        AExit.matched) := by
  rw [attemptLoop, if_pos hrc]
  dsimp only
  rw [ho]
  dsimp only
  rw [if_neg h6]

theorem attemptLoop_step_ok_limit (env : WalletEnv) (auto : Bool) (fuel rc : Nat)
    (s : St) (hrc : rc < maxRetries)
    (ho : env.startOutcome s.callIdx = StartOutcome.ok)
    (h6 : 6 ≤ s.sessionCount + 1) :
    attemptLoop env auto (fuel + 1) rc s =
      ([⟨EvKind.startCall auto StartOutcome.ok, s.sessionCount, s.sessionCount + 1⟩,
        ⟨EvKind.resetWait, s.sessionCount + 1, 0⟩],
        ⟨0, none, s.callIdx + 1, s.hydIdx⟩, AExit.limitHit) := by
  rw [attemptLoop, if_pos hrc]
  dsimp only
  rw [ho]
  dsimp only
  rw [if_pos h6]
  rfl

end Fractionz

namespace Fractionz

theorem Chained.append {a b c : Nat} {tr1 tr2 : List Entry}
    (h1 : Chained a tr1 b) (h2 : Chained b tr2 c) :
    Chained a (tr1 ++ tr2) c := by
  induction tr1 generalizing a with
  | nil => rw [show a = b from h1]; exact h2
  | cons e tr ih => exact ⟨h1.1, ih h1.2⟩

theorem Chained.head? {a b : Nat} {tr : List Entry} (h : Chained a tr b) :
    ∀ e, tr[0]? = some e → e.before = a := by
  cases tr with
  | nil => intro e he; simp at he
  | cons e0 tr =>
    intro e he
    simp at he
    rw [← he]
    exact h.1

theorem Chained.adjacent {a b : Nat} {tr : List Entry} (h : Chained a tr b) :
    ∀ (i : Nat) (e e' : Entry), tr[i]? = some e → tr[i + 1]? = some e' →
      e'.before = e.after := by
  induction tr generalizing a with
  | nil => intro i e e' he; simp at he
  | cons e0 tr ih =>
    intro i e e' he he'
    cases i with
    | zero =>
      simp at he
      subst he
      rw [show (0 : Nat) + 1 = 0 + 1 from rfl, List.getElem?_cons_succ] at he'
      exact h.2.head? e' he'
    | succ k =>
      simp only [List.getElem?_cons_succ] at he he'
      exact ih h.2 k e e' he he'

theorem attemptLoop_chained (env : WalletEnv) (auto : Bool) :
    ∀ (fuel retryCount : Nat) (s : St),
      Chained s.sessionCount (attemptLoop env auto fuel retryCount s).1
        (attemptLoop env auto fuel retryCount s).2.1.sessionCount := by
  intro fuel
  induction fuel with
  | zero => intro rc s; exact rfl
  | succ fuel ih =>
    intro rc s
    rw [attemptLoop]
    split
    · split
      · dsimp only
        split
        · exact ⟨rfl, rfl, rfl⟩
        · exact ⟨rfl, rfl, rfl⟩
      · dsimp only
        exact ⟨rfl, ih rc { s with callIdx := s.callIdx + 1 }⟩
      · dsimp only
        split
        · exact ⟨rfl, rfl, rfl⟩
        · dsimp only
          exact ⟨rfl, rfl, ih (rc + 1) { s with callIdx := s.callIdx + 1 }⟩
    · exact rfl

theorem attemptLoop_start6 (env : WalletEnv) (auto : Bool) :
    ∀ (fuel retryCount : Nat) (s : St), s.sessionCount < 6 →
      ∀ e ∈ (attemptLoop env auto fuel retryCount s).1, startBelow6 e = true := by
  intro fuel
  induction fuel with
  | zero => intro rc s _ e he; simp [attemptLoop] at he
  | succ fuel ih =>
    intro rc s hs e he
    rw [attemptLoop] at he
    split at he
    · split at he
      · dsimp only at he
        split at he
        · simp [handleSessionLimitRun] at he
          rcases he with rfl | rfl <;> simp [startBelow6, hs]
        · simp at he
          rcases he with rfl | rfl <;> simp [startBelow6, hs]
      · dsimp only at he
        simp at he
        rcases he with rfl | he
        · simp [startBelow6, hs]
        · exact ih rc { s with callIdx := s.callIdx + 1 } hs e he
      · dsimp only at he
        split at he
        · simp at he
          rcases he with rfl | rfl <;> simp [startBelow6, hs]
        · simp at he
          rcases he with rfl | rfl | he
          · simp [startBelow6, hs]
          · simp [startBelow6]
          · exact ih (rc + 1) { s with callIdx := s.callIdx + 1 } hs e he
    · simp at he

theorem attemptLoop_count_lt (env : WalletEnv) (auto : Bool) :
    ∀ (fuel retryCount : Nat) (s : St), s.sessionCount < 6 →
      (attemptLoop env auto fuel retryCount s).2.1.sessionCount < 6 := by
  intro fuel
  induction fuel with
  | zero => intro rc s hs; exact hs
  | succ fuel ih =>
    intro rc s hs
    rw [attemptLoop]
    split
    · split
      · dsimp only
        split
        · simp [handleSessionLimitRun]
        · next h6 => exact Nat.lt_of_not_le h6
      · dsimp only
        exact ih rc { s with callIdx := s.callIdx + 1 } hs
      · dsimp only
        split
        · exact hs
        · dsimp only
          exact ih (rc + 1) { s with callIdx := s.callIdx + 1 } hs
    · exact hs

end Fractionz

namespace Fractionz

theorem processSession_counterOk (env : WalletEnv) (cfg : Config)
    (target : Agent) (sess : Session) (fuel : Nat) (s : St) :
    ∀ e ∈ (processSession env cfg target sess fuel s).1, counterOk e = true := by
  intro e he
  unfold processSession at he
  split at he
  · split at he
    · dsimp only at he
      split at he <;>
        exact attemptLoop_counterOk env cfg.isAutoMatch fuel 0 s e he
    · simp at he
      subst he
      simp [counterOk]
  · simp at he

theorem processSession_chained (env : WalletEnv) (cfg : Config)
    (target : Agent) (sess : Session) (fuel : Nat) (s : St) :
    Chained s.sessionCount (processSession env cfg target sess fuel s).1
      (processSession env cfg target sess fuel s).2.1.sessionCount := by
  unfold processSession
  split
  · split
    · dsimp only
      split <;> exact attemptLoop_chained env cfg.isAutoMatch fuel 0 s
    · exact ⟨rfl, rfl⟩
  · exact rfl

theorem processSession_start6 (env : WalletEnv) (cfg : Config)
    (target : Agent) (sess : Session) (fuel : Nat) (s : St)
    (hs : s.sessionCount < 6) :
    ∀ e ∈ (processSession env cfg target sess fuel s).1, startBelow6 e = true := by
  intro e he
  unfold processSession at he
  split at he
  · split at he
    · dsimp only at he
      split at he <;>
        exact attemptLoop_start6 env cfg.isAutoMatch fuel 0 s hs e he
    · simp at he
      subst he
      simp [startBelow6]
  · simp at he

theorem processSession_count_lt (env : WalletEnv) (cfg : Config)
    (target : Agent) (sess : Session) (fuel : Nat) (s : St)
    (hs : s.sessionCount < 6) :
    (processSession env cfg target sess fuel s).2.1.sessionCount < 6 := by
  unfold processSession
  split
  · split
    · dsimp only
      split <;> exact attemptLoop_count_lt env cfg.isAutoMatch fuel 0 s hs
    · exact hs
  · exact hs

theorem sessionLoop_counterOk (env : WalletEnv) (cfg : Config) (target : Agent) :
    ∀ (sessions : List Session) (fuel : Nat) (s : St),
      ∀ e ∈ (sessionLoop env cfg target sessions fuel s).1, counterOk e = true := by
  intro sessions
  induction sessions with
  | nil => intro fuel s e he; simp [sessionLoop] at he
  | cons sess rest ih =>
    intro fuel s e he
    rw [sessionLoop] at he
    dsimp only at he
    split at he
    · dsimp only at he
      rw [List.mem_append] at he
      rcases he with he | he
      · exact processSession_counterOk env cfg target sess fuel s e he
      · exact ih fuel _ e he
    · exact processSession_counterOk env cfg target sess fuel s e he
    · exact processSession_counterOk env cfg target sess fuel s e he

theorem sessionLoop_chained (env : WalletEnv) (cfg : Config) (target : Agent) :
    ∀ (sessions : List Session) (fuel : Nat) (s : St),
      Chained s.sessionCount (sessionLoop env cfg target sessions fuel s).1
        (sessionLoop env cfg target sessions fuel s).2.1.sessionCount := by
  intro sessions
  induction sessions with
  | nil => intro fuel s; exact rfl
  | cons sess rest ih =>
    intro fuel s
    rw [sessionLoop]
    dsimp only
    split
    · dsimp only
      exact Chained.append (processSession_chained env cfg target sess fuel s)
        (ih fuel _)
    · exact processSession_chained env cfg target sess fuel s
    · exact processSession_chained env cfg target sess fuel s

theorem sessionLoop_start6 (env : WalletEnv) (cfg : Config) (target : Agent) :
    ∀ (sessions : List Session) (fuel : Nat) (s : St), s.sessionCount < 6 →
      ∀ e ∈ (sessionLoop env cfg target sessions fuel s).1, startBelow6 e = true := by
  intro sessions
  induction sessions with
  | nil => intro fuel s _ e he; simp [sessionLoop] at he
  | cons sess rest ih =>
    intro fuel s hs e he
    rw [sessionLoop] at he
    dsimp only at he
    split at he
    · dsimp only at he
      rw [List.mem_append] at he
      rcases he with he | he
      · exact processSession_start6 env cfg target sess fuel s hs e he
      · exact ih fuel _ (processSession_count_lt env cfg target sess fuel s hs) e he
    · exact processSession_start6 env cfg target sess fuel s hs e he
    · exact processSession_start6 env cfg target sess fuel s hs e he

theorem sessionLoop_count_lt (env : WalletEnv) (cfg : Config) (target : Agent) :
    ∀ (sessions : List Session) (fuel : Nat) (s : St), s.sessionCount < 6 →
      (sessionLoop env cfg target sessions fuel s).2.1.sessionCount < 6 := by
  intro sessions
  induction sessions with
  | nil => intro fuel s hs; exact hs
  | cons sess rest ih =>
    intro fuel s hs
    rw [sessionLoop]
    dsimp only
    split
    · exact ih fuel _ (processSession_count_lt env cfg target sess fuel s hs)
    · exact processSession_count_lt env cfg target sess fuel s hs
    · exact processSession_count_lt env cfg target sess fuel s hs

end Fractionz

namespace Fractionz

theorem runWallet_counterOk (env : WalletEnv) (cfg : Config) :
    ∀ (fuel : Nat) (s : St),
      ∀ e ∈ (runWallet env cfg fuel s).1, counterOk e = true := by
  intro fuel
  induction fuel with
  | zero => intro s e he; simp [runWallet] at he
  | succ fuel ih =>
    intro s e he
    rw [runWallet] at he
    split at he
    · simp [handleSessionLimitRun] at he
      rcases he with rfl | he
      · simp [counterOk]
      · exact ih _ e he
    · split at he
      · try dsimp only at he
        simp at he
        rcases he with rfl | he
        · simp [counterOk]
        · exact ih _ e he
      · try dsimp only at he
        split at he
        · simp at he
          rcases he with rfl | rfl | he
          · simp [counterOk]
          · simp [counterOk]
          · exact ih _ e he
        · split at he
          · try dsimp only at he
            simp at he
            rcases he with rfl | he
            · simp [counterOk]
            · exact ih _ e he
          · try dsimp only at he
            split at he
            · try dsimp only at he
              rw [List.mem_append] at he
              rcases he with he | he
              · exact sessionLoop_counterOk env cfg _ _ fuel _ e he
              · exact ih _ e he
            · exact sessionLoop_counterOk env cfg _ _ fuel _ e he
            · try dsimp only at he
              rw [List.mem_append] at he
              rcases he with he | he
              · exact sessionLoop_counterOk env cfg _ _ fuel _ e he
              · simp at he
                rcases he with rfl | he
                · simp [counterOk]
                · exact ih _ e he

theorem runWallet_chained (env : WalletEnv) (cfg : Config) :
    ∀ (fuel : Nat) (s : St),
      Chained s.sessionCount (runWallet env cfg fuel s).1
        (runWallet env cfg fuel s).2.sessionCount := by
  intro fuel
  induction fuel with
  | zero => intro s; exact rfl
  | succ fuel ih =>
    intro s
    rw [runWallet]
    split
    · dsimp only [handleSessionLimitRun]
      exact ⟨rfl, ih ⟨0, none, s.callIdx, s.hydIdx⟩⟩
    · split
      · try dsimp only
        exact ⟨rfl, ih { s with hydIdx := s.hydIdx + 1 }⟩
      · try dsimp only
        split
        · try dsimp only
          exact ⟨rfl, rfl, ih { s with hydIdx := s.hydIdx + 1 }⟩
        · split
          · try dsimp only
            exact ⟨rfl, ih { s with hydIdx := s.hydIdx + 1 }⟩
          · try dsimp only
            split
            · try dsimp only
              exact Chained.append
                (sessionLoop_chained env cfg _ _ fuel { s with hydIdx := s.hydIdx + 1 })
                (ih _)
            · exact sessionLoop_chained env cfg _ _ fuel { s with hydIdx := s.hydIdx + 1 }
            · try dsimp only
              exact Chained.append
                (sessionLoop_chained env cfg _ _ fuel { s with hydIdx := s.hydIdx + 1 })
                ⟨rfl, ih _⟩

theorem runWallet_start6 (env : WalletEnv) (cfg : Config) :
    ∀ (fuel : Nat) (s : St),
      ∀ e ∈ (runWallet env cfg fuel s).1, startBelow6 e = true := by
  intro fuel
  induction fuel with
  | zero => intro s e he; simp [runWallet] at he
  | succ fuel ih =>
    intro s e he
    rw [runWallet] at he
    split at he
    · simp [handleSessionLimitRun] at he
      rcases he with rfl | he
      · simp [startBelow6]
      · exact ih _ e he
    · next hgate =>
      have hs : s.sessionCount < 6 := Nat.lt_of_not_le hgate
      split at he
      · try dsimp only at he
        simp at he
        rcases he with rfl | he
        · simp [startBelow6]
        · exact ih _ e he
      · try dsimp only at he
        split at he
        · simp at he
          rcases he with rfl | rfl | he
          · simp [startBelow6]
          · simp [startBelow6]
          · exact ih _ e he
        · split at he
          · try dsimp only at he
            simp at he
            rcases he with rfl | he
            · simp [startBelow6]
            · exact ih _ e he
          · try dsimp only at he
            split at he
            · try dsimp only at he
              rw [List.mem_append] at he
              rcases he with he | he
              · exact sessionLoop_start6 env cfg _ _ fuel { s with hydIdx := s.hydIdx + 1 } hs e he
              · exact ih _ e he
            · exact sessionLoop_start6 env cfg _ _ fuel { s with hydIdx := s.hydIdx + 1 } hs e he
            · try dsimp only at he
              rw [List.mem_append] at he
              rcases he with he | he
              · exact sessionLoop_start6 env cfg _ _ fuel { s with hydIdx := s.hydIdx + 1 } hs e he
              · simp at he
                rcases he with rfl | he
                · simp [startBelow6]
                · exact ih _ e he

end Fractionz

namespace Fractionz

theorem counterOk_noDrop {e : Entry} (h : counterOk e = true)
    (hne : e.ev ≠ EvKind.resetWait) : e.before ≤ e.after := by
  unfold counterOk at h
  cases hev : e.ev <;> rw [hev] at h
  case resetWait => exact absurd hev hne
  case startCall a o => cases o <;> simp at h <;> omega
  all_goals (simp at h; omega)

theorem counterOk_reset {e : Entry} (h : counterOk e = true)
    (hev : e.ev = EvKind.resetWait) : e.after = 0 := by
  unfold counterOk at h
  rw [hev] at h
  simpa using h

theorem startBelow6_lt {e : Entry} (hs : startBelow6 e = true)
    (hst : isStartEv e.ev = true) : e.before < 6 := by
  unfold startBelow6 at hs
  unfold isStartEv at hst
  cases hev : e.ev <;> rw [hev] at hs hst <;> simp at hst hs ⊢
  exact hs

theorem reset_between_aux {a b : Nat} {tr : List Entry}
    (hch : Chained a tr b)
    (hco : ∀ e ∈ tr, counterOk e = true)
    (j : Nat) (e2 : Entry) (h2 : tr[j]? = some e2) (hlt2 : e2.before < 6) :
    ∀ (n i : Nat) (e1 : Entry), j - i = n → i ≤ j → tr[i]? = some e1 →
      6 ≤ e1.before →
      ∃ (k : Nat) (e3 : Entry), i ≤ k ∧ k < j ∧ tr[k]? = some e3 ∧
        e3.ev = EvKind.resetWait := by
  intro n
  induction n with
  | zero =>
    intro i e1 hn hij h1 hge
    have hij' : i = j := by omega
    subst hij'
    rw [h1] at h2
    cases h2
    omega
  | succ n ih =>
    intro i e1 hn hij h1 hge
    have hij' : i < j := by omega
    by_cases hr : e1.ev = EvKind.resetWait
    · exact ⟨i, e1, Nat.le_refl i, hij', h1, hr⟩
    · have hle : e1.before ≤ e1.after :=
        counterOk_noDrop (hco e1 (List.getElem?_mem h1)) hr
      have hjlt : j < tr.length := (List.getElem?_eq_some.mp h2).1
      have hi1 : i + 1 < tr.length := by omega
      obtain ⟨e1', h1'⟩ : ∃ x, tr[i + 1]? = some x := by
        rw [List.getElem?_eq_getElem hi1]
        exact ⟨_, rfl⟩
      have hb' : e1'.before = e1.after := hch.adjacent i e1 e1' h1 h1'
      obtain ⟨k, e3, hk1, hk2, hk3, hk4⟩ :=
        ih (i + 1) e1' (by omega) (by omega) h1' (by omega)
      exact ⟨k, e3, by omega, hk2, hk3, hk4⟩

theorem reset_between {a b : Nat} {tr : List Entry}
    (hch : Chained a tr b)
    (h6 : ∀ e ∈ tr, startBelow6 e = true)
    (hco : ∀ e ∈ tr, counterOk e = true) :
    ∀ (i j : Nat) (e1 e2 : Entry), i ≤ j →
      tr[i]? = some e1 → tr[j]? = some e2 →
      6 ≤ e1.before → isStartEv e2.ev = true →
      ∃ (k : Nat) (e3 : Entry), i ≤ k ∧ k < j ∧ tr[k]? = some e3 ∧
        e3.ev = EvKind.resetWait := by
  intro i j e1 e2 hij h1 h2 hge hstart
  have hlt2 : e2.before < 6 :=
    startBelow6_lt (h6 e2 (List.getElem?_mem h2)) hstart
  exact reset_between_aux hch hco j e2 h2 hlt2 (j - i) i e1 rfl hij h1 hge

end Fractionz

namespace Fractionz

theorem countP_replicate (p : Entry → Bool) (n : Nat) (e : Entry) :
    (List.replicate n e).countP p = if p e then n else 0 := by
  induction n with
  | zero => simp
  | succ n ih =>
    rw [List.replicate_succ, List.countP_cons, ih]
    by_cases h : p e <;> simp [h]

theorem attemptLoop_falsy_eq (auto : Bool) :
    ∀ (fuel rc : Nat) (s : St), rc < maxRetries →
      attemptLoop envFalsy auto fuel rc s =
        (List.replicate fuel
          ⟨EvKind.startCall auto StartOutcome.falsy, s.sessionCount, s.sessionCount⟩,
          { s with callIdx := s.callIdx + fuel }, AExit.fuelOut) := by
  intro fuel
  induction fuel with
  | zero =>
    intro rc s h
    simp [attemptLoop]
  | succ fuel ih =>
    intro rc s h
    rw [attemptLoop_step_falsy envFalsy auto fuel rc s h rfl,
      ih rc { s with callIdx := s.callIdx + 1 } h]
    simp [List.replicate_succ, St.mk.injEq]
    omega

/-- C2: in every single-wallet execution from the initial state, every
reset-wait leaves the counter reading 0 the moment it completes, and
between any point where the counter stands at 6 (or more) and any later
start call there is a reset-wait. -/
theorem c2_quota_gate (env : WalletEnv) (cfg : Config) (fuel : Nat) :
    (∀ e ∈ (runWallet env cfg fuel initSt).1,
      e.ev = EvKind.resetWait → e.after = 0) ∧
    (∀ (i j : Nat) (e1 e2 : Entry), i ≤ j →
      (runWallet env cfg fuel initSt).1[i]? = some e1 →
      (runWallet env cfg fuel initSt).1[j]? = some e2 →
      6 ≤ e1.before → isStartEv e2.ev = true →
      ∃ (k : Nat) (e3 : Entry), i ≤ k ∧ k < j ∧
        (runWallet env cfg fuel initSt).1[k]? = some e3 ∧
        e3.ev = EvKind.resetWait) := by
  constructor
  · intro e he hev
    exact counterOk_reset (runWallet_counterOk env cfg fuel initSt e he) hev
  · exact reset_between (runWallet_chained env cfg fuel initSt)
      (runWallet_start6 env cfg fuel initSt)
      (runWallet_counterOk env cfg fuel initSt)

/-- C6: along any execution, a truthy start call raises the counter by
exactly 1, a falsy or throwing start call and every plain wait leave it
unchanged, only the reset-wait otherwise changes it (to 0); and a
session whose matching target agent is already automated produces
exactly the skip log — no start call, state untouched. -/
theorem c6_counter_discipline :
    (∀ (env : WalletEnv) (cfg : Config) (fuel : Nat),
      ∀ e ∈ (runWallet env cfg fuel initSt).1, counterOk e = true) ∧
    (∀ (env : WalletEnv) (cfg : Config) (target : Agent) (sess : Session)
        (fuel : Nat) (s : St),
      target.automationEnabled = true →
      target.sessionType.sessionType = sess.sessionType.sessionType →
      processSession env cfg target sess fuel s =
        ([⟨EvKind.skipAutomated, s.sessionCount, s.sessionCount⟩], s,
          SExit.next)) := by
  constructor
  · intro env cfg fuel
    exact runWallet_counterOk env cfg fuel initSt
  · intro env cfg target sess fuel s hauto htype
    unfold processSession
    rw [if_pos htype, if_neg (by simp [hauto])]

/-- C9: with a start function that always returns a falsy result without
throwing, the retry loop never finishes on its own: for every fuel bound
it is still running, having made one start call per unit of fuel with
the retry counter untouched, no backoff wait, no terminal skip, and the
session counter unchanged — so the wallet never proceeds past that
session. -/
theorem c9_falsy_never_terminates (auto : Bool) (cfg : Config)
    (target : Agent) (sess : Session) (fuel rc : Nat) (s : St)
    (hrc : rc < maxRetries)
    (hauto : target.automationEnabled = false)
    (htype : target.sessionType.sessionType = sess.sessionType.sessionType) :
    (attemptLoop envFalsy auto fuel rc s).2.2 = AExit.fuelOut ∧
    (attemptLoop envFalsy auto fuel rc s).1 =
      List.replicate fuel
        ⟨EvKind.startCall auto StartOutcome.falsy, s.sessionCount, s.sessionCount⟩ ∧
    countStartCalls (attemptLoop envFalsy auto fuel rc s).1 = fuel ∧
    countBackoffs (attemptLoop envFalsy auto fuel rc s).1 = 0 ∧
    hasSkipLog (attemptLoop envFalsy auto fuel rc s).1 = false ∧
    (attemptLoop envFalsy auto fuel rc s).2.1.sessionCount = s.sessionCount ∧
    (processSession envFalsy cfg target sess fuel s).2.2 = SExit.fuelOut := by
  have heq := attemptLoop_falsy_eq auto fuel rc s hrc
  have heq0 := attemptLoop_falsy_eq cfg.isAutoMatch fuel 0 s (by decide)
  refine ⟨by rw [heq], by rw [heq], ?_, ?_, ?_, by rw [heq], ?_⟩
  · rw [heq]
    simp [countStartCalls, countP_replicate, isStartEv]
  · rw [heq]
    simp [countBackoffs, countP_replicate]
  · rw [heq]
    simp [hasSkipLog, List.any_eq_true, List.mem_replicate]
  · unfold processSession
    rw [if_pos htype, if_pos hauto]
    dsimp only
    rw [heq0]

end Fractionz

namespace Fractionz

/-- C1: against a start function that throws on the first N calls and
then returns a truthy result, the retry loop returns the success after
exactly N+1 calls and N backoff waits when N < 3 (no terminal skip, the
counter recording the success), and when N ≥ 3 it makes exactly 3 calls
with 2 backoff waits, logs the terminal skip, and ends with a plain
break — no error reaches the surrounding iteration — leaving the
counter unchanged. -/
theorem c1_match_attempt_policy (N : Nat) (auto : Bool) (c hyd : Nat)
    (last : Option Nat) (hc : c + 1 < 6) :
    (N < 3 →
      (attemptLoop (envFailN N) auto (N + 3) 0 ⟨c, last, 0, hyd⟩).2.2 =
        AExit.matched ∧
      countStartCalls (attemptLoop (envFailN N) auto (N + 3) 0 ⟨c, last, 0, hyd⟩).1 =
        N + 1 ∧
      countBackoffs (attemptLoop (envFailN N) auto (N + 3) 0 ⟨c, last, 0, hyd⟩).1 =
        N ∧
      hasSkipLog (attemptLoop (envFailN N) auto (N + 3) 0 ⟨c, last, 0, hyd⟩).1 =
        false ∧
      (attemptLoop (envFailN N) auto (N + 3) 0 ⟨c, last, 0, hyd⟩).2.1.sessionCount =
        c + 1) ∧
    (3 ≤ N →
      (attemptLoop (envFailN N) auto (N + 3) 0 ⟨c, last, 0, hyd⟩).2.2 =
        AExit.gaveUp ∧
      countStartCalls (attemptLoop (envFailN N) auto (N + 3) 0 ⟨c, last, 0, hyd⟩).1 =
        3 ∧
      countBackoffs (attemptLoop (envFailN N) auto (N + 3) 0 ⟨c, last, 0, hyd⟩).1 =
        2 ∧
      hasSkipLog (attemptLoop (envFailN N) auto (N + 3) 0 ⟨c, last, 0, hyd⟩).1 =
        true ∧
      (attemptLoop (envFailN N) auto (N + 3) 0 ⟨c, last, 0, hyd⟩).2.1.sessionCount =
        c) := by
  have hc6 : ¬6 ≤ c + 1 := by omega
  constructor
  · intro hN
    interval_cases N
    · rw [attemptLoop_step_ok_matched (envFailN 0) auto 2 0 ⟨c, last, 0, hyd⟩
        (by decide) rfl hc6]
      refine ⟨rfl, ?_, ?_, ?_, rfl⟩ <;>
        simp [countStartCalls, countBackoffs, hasSkipLog, List.countP_cons,
          isStartEv]
    · rw [attemptLoop_step_err (envFailN 1) auto 3 0 ⟨c, last, 0, hyd⟩
        (by decide) rfl (by decide)]
      rw [attemptLoop_step_ok_matched (envFailN 1) auto 2 1 _ (by decide)
        (show (envFailN 1).startOutcome 1 = StartOutcome.ok from rfl) hc6]
      refine ⟨rfl, ?_, ?_, ?_, rfl⟩ <;>
        simp [countStartCalls, countBackoffs, hasSkipLog, List.countP_cons,
          isStartEv]
    · rw [attemptLoop_step_err (envFailN 2) auto 4 0 ⟨c, last, 0, hyd⟩
        (by decide) rfl (by decide)]
      rw [attemptLoop_step_err (envFailN 2) auto 3 1 _ (by decide)
        (show (envFailN 2).startOutcome 1 = StartOutcome.err from rfl) (by decide)]
      rw [attemptLoop_step_ok_matched (envFailN 2) auto 2 2 _ (by decide)
        (show (envFailN 2).startOutcome 2 = StartOutcome.ok from rfl) hc6]
      refine ⟨rfl, ?_, ?_, ?_, rfl⟩ <;>
        simp [countStartCalls, countBackoffs, hasSkipLog, List.countP_cons,
          isStartEv]
  · intro hN
    have ho : ∀ k, k < N → (envFailN N).startOutcome k = StartOutcome.err := by
      intro k hk
      simp [envFailN, hk]
    rw [show N + 3 = (N + 2) + 1 from rfl,
      attemptLoop_step_err (envFailN N) auto (N + 2) 0 ⟨c, last, 0, hyd⟩
        (by decide) (ho 0 (by omega)) (by decide)]
    rw [show N + 2 = (N + 1) + 1 from rfl,
      attemptLoop_step_err (envFailN N) auto (N + 1) 1 _
        (by decide) (ho 1 (by omega)) (by decide)]
    rw [attemptLoop_step_err_last (envFailN N) auto N 2 _
      (by decide) (ho 2 (by omega)) (by decide)]
    refine ⟨rfl, ?_, ?_, ?_, rfl⟩ <;>
      simp [countStartCalls, countBackoffs, hasSkipLog, List.countP_cons,
        isStartEv]

end Fractionz

namespace Fractionz

/-- C1 witness: the policy at N = 1 (success after 2 calls, 1 backoff)
and at N = 5 (3 calls, 2 backoffs, terminal skip). -/
theorem c1_match_attempt_policy_witness :
    (attemptLoop (envFailN 1) false (1 + 3) 0 ⟨0, none, 0, 0⟩).2.2 =
      AExit.matched ∧
    countStartCalls (attemptLoop (envFailN 1) false (1 + 3) 0 ⟨0, none, 0, 0⟩).1 =
      2 ∧
    (attemptLoop (envFailN 5) false (5 + 3) 0 ⟨0, none, 0, 0⟩).2.2 =
      AExit.gaveUp ∧
    countBackoffs (attemptLoop (envFailN 5) false (5 + 3) 0 ⟨0, none, 0, 0⟩).1 =
      2 :=
  ⟨((c1_match_attempt_policy 1 false 0 0 none (by decide)).1 (by decide)).1,
   ((c1_match_attempt_policy 1 false 0 0 none (by decide)).1 (by decide)).2.1,
   ((c1_match_attempt_policy 5 false 0 0 none (by decide)).2 (by decide)).1,
   ((c1_match_attempt_policy 5 false 0 0 none (by decide)).2 (by decide)).2.2.1⟩

/-- C2 witness: in the concrete all-successes run, the counter stands at
6 at entry 16 (the reset-wait) and entry 17 is the next start call; the
gate theorem produces a reset-wait between them. -/
theorem c2_quota_gate_witness :
    (runWallet env0 cfg0 8 initSt).1[16]? = some ⟨EvKind.resetWait, 6, 0⟩ ∧
    (runWallet env0 cfg0 8 initSt).1[17]? =
      some ⟨EvKind.startCall false StartOutcome.ok, 0, 1⟩ ∧
    ∃ (k : Nat) (e3 : Entry), 16 ≤ k ∧ k < 17 ∧
      (runWallet env0 cfg0 8 initSt).1[k]? = some e3 ∧
      e3.ev = EvKind.resetWait := by
  refine ⟨by decide, by decide, ?_⟩
  exact (c2_quota_gate env0 cfg0 8).2 16 17 ⟨EvKind.resetWait, 6, 0⟩
    ⟨EvKind.startCall false StartOutcome.ok, 0, 1⟩ (by decide) (by decide)
    (by decide) (by decide) (by decide)

/-- C6 witness: the counter discipline at a concrete successful start
entry of the all-successes run, and the skip of an already-automated
agent at a concrete session. -/
theorem c6_counter_discipline_witness :
    counterOk ⟨EvKind.startCall false StartOutcome.ok, 0, 1⟩ = true ∧
    agAuto.automationEnabled = true ∧
    processSession env0 cfg0 agAuto sess0 1 initSt =
      ([⟨EvKind.skipAutomated, 0, 0⟩], initSt, SExit.next) := by
  refine ⟨?_, by decide, ?_⟩
  · exact c6_counter_discipline.1 env0 cfg0 8
      ⟨EvKind.startCall false StartOutcome.ok, 0, 1⟩ (by decide)
  · exact c6_counter_discipline.2 env0 cfg0 agAuto sess0 1 initSt rfl rfl

/-- C9 witness: the forever-falsy loop at fuel 4 from the initial
state. -/
theorem c9_falsy_never_terminates_witness :
    (attemptLoop envFalsy false 4 0 initSt).2.2 = AExit.fuelOut ∧
    countStartCalls (attemptLoop envFalsy false 4 0 initSt).1 = 4 ∧
    countBackoffs (attemptLoop envFalsy false 4 0 initSt).1 = 0 ∧
    (processSession envFalsy cfg0 agentA sess0 4 initSt).2.2 = SExit.fuelOut := by
  have h := c9_falsy_never_terminates false cfg0 agentA sess0 4 0 initSt
    (by decide) rfl rfl
  exact ⟨h.1, h.2.2.1, h.2.2.2.1, h.2.2.2.2.2.2⟩

end Fractionz
